import Mathlib

/-!
Verification of the PKCS#8 adapter and RSA key-pair facade of josekit
(`src/jwk/key_pair/rsa.rs`).  The DER reader/builder, the `Jwk` JSON
abstraction, the PEM parser and the `JoseError` type live outside the
provided sources and are modelled from the specification; the functions of
`rsa.rs` (`detect_pkcs8`, `to_pkcs8`, `from_der`, `from_pem`, `from_jwk`,
`to_jwk`, `generate`, the `KeyPair` trait impl) are translated directly
from the source.  Bytes are modelled as natural numbers; every byte a
builder emits is `< 256`, and the reader rejects out-of-range values.
-/

set_option maxRecDepth 4000

/-! ### Big-endian byte strings (used by DER definite-form lengths) -/

/-- Modelled from the spec: minimal big-endian byte representation of a
natural number (no leading zero bytes; the empty list for `0`). -/
def beBytes : Nat → List Nat
  | 0 => []
  | n + 1 => beBytes ((n + 1) / 256) ++ [(n + 1) % 256]
decreasing_by exact Nat.div_lt_self (Nat.succ_pos n) (by omega)

/-- Value of a big-endian byte string. -/
def beVal (bs : List Nat) : Nat := bs.foldl (fun a b => a * 256 + b) 0

theorem beBytes_zero : beBytes 0 = [] := by
  simp [beBytes]

theorem beBytes_succ (n : Nat) (hn : n ≠ 0) :
    beBytes n = beBytes (n / 256) ++ [n % 256] := by
  match n, hn with
  | n + 1, _ => rw [beBytes]

theorem beVal_append_singleton (bs : List Nat) (b : Nat) :
    beVal (bs ++ [b]) = beVal bs * 256 + b := by
  simp [beVal, List.foldl_append]

theorem beVal_aux_ge (bs : List Nat) (a : Nat) :
    a ≤ bs.foldl (fun a b => a * 256 + b) a := by
  induction bs generalizing a with
  | nil => simp
  | cons c t ih =>
      simp only [List.foldl_cons]
      calc a ≤ a * 256 + c := by omega
        _ ≤ _ := ih _

theorem beVal_pos (h : Nat) (t : List Nat) (hh : h ≠ 0) : 0 < beVal (h :: t) := by
  have := beVal_aux_ge t h
  simp only [beVal, List.foldl_cons, Nat.zero_mul, Nat.zero_add]
  omega

theorem beBytes_eq_nil_iff (n : Nat) : beBytes n = [] ↔ n = 0 := by
  constructor
  · intro h
    by_contra hn
    rw [beBytes_succ n hn] at h
    simp at h
  · rintro rfl; exact beBytes_zero

theorem beVal_beBytes (n : Nat) : beVal (beBytes n) = n := by
  induction n using Nat.strong_induction_on with
  | _ n ih =>
    match n with
    | 0 => rw [beBytes_zero]; rfl
    | n + 1 =>
        rw [beBytes_succ (n + 1) (by omega), beVal_append_singleton,
          ih ((n + 1) / 256) (Nat.div_lt_self (by omega) (by omega))]
        omega

theorem beBytes_head_ne_zero (n : Nat) (hn : n ≠ 0) :
    ∃ h t, beBytes n = h :: t ∧ h ≠ 0 := by
  induction n using Nat.strong_induction_on with
  | _ n ih =>
    rw [beBytes_succ n hn]
    by_cases hq : n / 256 = 0
    · refine ⟨n % 256, [], ?_, ?_⟩
      · simp [hq, beBytes_zero]
      · omega
    · obtain ⟨h, t, ht, hne⟩ := ih (n / 256) (Nat.div_lt_self (by omega) (by omega)) hq
      exact ⟨h, t ++ [n % 256], by simp [ht], hne⟩

theorem beBytes_lt_256 (n : Nat) : ∀ b ∈ beBytes n, b < 256 := by
  induction n using Nat.strong_induction_on with
  | _ n ih =>
    intro b hb
    match n with
    | 0 => rw [beBytes_zero] at hb; simp at hb
    | n + 1 =>
        rw [beBytes_succ (n + 1) (by omega)] at hb
        rcases List.mem_append.mp hb with h | h
        · exact ih ((n + 1) / 256) (Nat.div_lt_self (by omega) (by omega)) b h
        · simp at h; omega

/-- Injectivity of the minimal big-endian representation: a nonempty byte
string with all bytes `< 256` and a nonzero leading byte is recovered by
`beBytes` from its value. -/
theorem beBytes_beVal (bs : List Nat) (hne : bs ≠ [])
    (hhead : ∀ h t, bs = h :: t → h ≠ 0) (hlt : ∀ b ∈ bs, b < 256) :
    beBytes (beVal bs) = bs := by
  induction bs using List.reverseRecOn with
  | nil => simp at hne
  | append_singleton l b ihl =>
      rw [beVal_append_singleton]
      rcases List.eq_nil_or_concat l with hl | ⟨l0, b0, hl⟩
      · subst hl
        have hb : b ≠ 0 := hhead b [] rfl
        have hb2 : b < 256 := hlt b (by simp)
        simp only [beVal, List.foldl_nil, Nat.zero_mul, Nat.zero_add]
        rw [beBytes_succ b hb]
        rw [Nat.div_eq_of_lt hb2, Nat.mod_eq_of_lt hb2]
        simp [beBytes_zero]
      · rw [List.concat_eq_append] at hl
        subst hl
        have hlne : l0 ++ [b0] ≠ ([] : List Nat) := by simp
        have hhead2 : ∀ h t, l0 ++ [b0] = h :: t → h ≠ 0 := by
          intro h t hcons
          exact hhead h (t ++ [b]) (by rw [hcons]; simp)
        have hlt2 : ∀ c ∈ l0 ++ [b0], c < 256 := fun c hc => hlt c (by simp at hc ⊢; tauto)
        have hpos : 0 < beVal (l0 ++ [b0]) := by
          rcases l0 with _ | ⟨x, xs⟩
          · simp only [List.nil_append]
            exact beVal_pos b0 [] (hhead2 b0 [] rfl)
          · exact beVal_pos x (xs ++ [b0]) (hhead2 x (xs ++ [b0]) rfl)
        have hblt : b < 256 := hlt b (by simp)
        have hnz : beVal (l0 ++ [b0]) * 256 + b ≠ 0 := by omega
        rw [beBytes_succ _ hnz]
        have hdiv : (beVal (l0 ++ [b0]) * 256 + b) / 256 = beVal (l0 ++ [b0]) := by
          omega
        have hmod : (beVal (l0 ++ [b0]) * 256 + b) % 256 = b := by
          omega
        rw [hdiv, hmod, ihl hlne hhead2 hlt2]

/-! ### DER definite-form length encoding (Builder side, spec section 4.2) -/

/-- Modelled from the spec: DER definite-form length: short form (single
byte) for lengths up to 127, otherwise long form `0x80+k` followed by the
`k`-byte minimal big-endian value. -/
def encLen (n : Nat) : List Nat :=
  if n < 128 then [n] else (128 + (beBytes n).length) :: beBytes n

/-! ### DER length decoding (Reader side, spec section 4.1) -/

/-- Modelled from the spec: parse a DER definite-form length at the head of
the buffer, returning the length and the remaining bytes.  Rejects
indefinite form, non-minimal long form, and out-of-range byte values
("bit-exact, spec-compliant decoding with no tolerance for ambiguity"). -/
def parseLen : List Nat → Option (Nat × List Nat)
  | [] => none
  | b :: rest =>
    if b < 128 then some (b, rest)
    else if b = 128 then none
    else if b - 128 ≤ rest.length then
      if (rest.take (b - 128)).head? = some 0 then none
      else if ∃ c ∈ rest.take (b - 128), 256 ≤ c then none
      else if beVal (rest.take (b - 128)) < 128 then none
      else some (beVal (rest.take (b - 128)), rest.drop (b - 128))
    else none

theorem parseLen_encLen (n : Nat) (rest : List Nat) :
    parseLen (encLen n ++ rest) = some (n, rest) := by
  by_cases h : n < 128
  · simp [encLen, parseLen, h]
  · have hne : n ≠ 0 := by omega
    obtain ⟨hd, tl, hht, hhd⟩ := beBytes_head_ne_zero n hne
    have hlen : (beBytes n).length ≠ 0 := by
      intro h0
      rw [List.length_eq_zero] at h0
      rw [(beBytes_eq_nil_iff n).mp h0] at hne
      exact hne rfl
    simp only [encLen, if_neg h, List.cons_append]
    rw [parseLen]
    rw [if_neg (by omega : ¬ (128 + (beBytes n).length < 128))]
    rw [if_neg (by omega : ¬ (128 + (beBytes n).length = 128))]
    have hk : 128 + (beBytes n).length - 128 = (beBytes n).length := by omega
    rw [hk]
    rw [if_pos (by simp : (beBytes n).length ≤ (beBytes n ++ rest).length)]
    rw [List.take_left, List.drop_left]
    rw [if_neg (by rw [hht]; simp [hhd] : ¬ (beBytes n).head? = some 0)]
    rw [if_neg ?_, if_neg ?_]
    · rw [beVal_beBytes]
    · rw [beVal_beBytes]; omega
    · rintro ⟨c, hc, hge⟩
      have := beBytes_lt_256 n c hc
      omega

theorem parseLen_sound (bs : List Nat) (n : Nat) (rest : List Nat)
    (h : parseLen bs = some (n, rest)) : bs = encLen n ++ rest := by
  match bs with
  | [] => simp [parseLen] at h
  | b :: r =>
      rw [parseLen] at h
      by_cases hb : b < 128
      · rw [if_pos hb] at h
        simp only [Option.some.injEq, Prod.mk.injEq] at h
        obtain ⟨rfl, rfl⟩ := h
        simp [encLen, hb]
      · rw [if_neg hb] at h
        by_cases hb128 : b = 128
        · simp [hb128] at h
        rw [if_neg hb128] at h
        by_cases hkle : b - 128 ≤ r.length
        · rw [if_pos hkle] at h
          by_cases hh0 : (r.take (b - 128)).head? = some 0
          · simp [hh0] at h
          rw [if_neg hh0] at h
          by_cases hany : ∃ c ∈ r.take (b - 128), 256 ≤ c
          · simp [if_pos hany] at h
          rw [if_neg hany] at h
          by_cases hnlt : beVal (r.take (b - 128)) < 128
          · simp [hnlt] at h
          rw [if_neg hnlt] at h
          simp only [Option.some.injEq, Prod.mk.injEq] at h
          obtain ⟨hn, hrest⟩ := h
          have htne : r.take (b - 128) ≠ [] := by
            have hlt : (r.take (b - 128)).length = min (b - 128) r.length :=
              List.length_take _ _
            intro h0
            rw [h0] at hlt
            simp only [List.length_nil] at hlt
            omega
          have hthead : ∀ hd t, r.take (b - 128) = hd :: t → hd ≠ 0 := by
            intro hd tl hht h0
            rw [hht, h0] at hh0
            simp at hh0
          have htlt : ∀ c ∈ r.take (b - 128), c < 256 := by
            intro c hc
            by_contra hge
            exact hany ⟨c, hc, by omega⟩
          have hbe : beBytes n = r.take (b - 128) := by
            rw [← hn]
            exact beBytes_beVal _ htne hthead htlt
          have hlenb : (beBytes n).length = b - 128 := by
            rw [hbe, List.length_take]
            omega
          rw [encLen, if_neg (by omega : ¬ n < 128), hlenb, hbe]
          have hsplit : b :: r = b :: (r.take (b - 128) ++ r.drop (b - 128)) := by
            rw [List.take_append_drop]
          rw [hsplit, ← hrest]
          congr 1
          omega
        · simp [hkle] at h

/-! ### DER types and the reader (spec section 4.1) -/

/-- DER universal types supported by the codec (spec section 3, "DER Tag"). -/
inductive DerType where
  | Sequence
  | Integer
  | ObjectIdentifier
  | Null
  | BitString
  | OctetString
deriving DecidableEq, Repr

/-- Modelled from the spec: tag byte of each supported DER type
(Sequence carries the constructed bit). -/
def DerType.tagByte : DerType → Nat
  | .Sequence => 0x30
  | .Integer => 0x02
  | .ObjectIdentifier => 0x06
  | .Null => 0x05
  | .BitString => 0x03
  | .OctetString => 0x04

/-- Modelled from the spec: map a tag byte to the supported DER type;
unsupported tags are a decode error ("tag byte maps to exactly one enum
variant; unsupported tags are a decode error"). -/
def byteToType (b : Nat) : Option DerType :=
  if b = 0x30 then some .Sequence
  else if b = 0x02 then some .Integer
  else if b = 0x06 then some .ObjectIdentifier
  else if b = 0x05 then some .Null
  else if b = 0x03 then some .BitString
  else if b = 0x04 then some .OctetString
  else none

theorem byteToType_eq_some (b : Nat) (t : DerType) :
    byteToType b = some t ↔ b = t.tagByte := by
  cases t <;> (unfold byteToType; split_ifs <;> simp_all [DerType.tagByte])

/-- Modelled from the spec: `next()` of the DER reader: decode the
tag+length header at the cursor and advance the cursor past the header
(the value is not consumed).  Returns the decoded type, the declared
content length, and the remaining buffer. -/
def readHeader (bs : List Nat) : Option (DerType × Nat × List Nat) :=
  match bs with
  | [] => none
  | b :: rest =>
    match byteToType b with
    | some t =>
      match parseLen rest with
      | some (len, rest2) => some (t, len, rest2)
      | none => none
    | none => none

theorem readHeader_eq_some (bs : List Nat) (t : DerType) (len : Nat) (rest : List Nat) :
    readHeader bs = some (t, len, rest) ↔ bs = t.tagByte :: encLen len ++ rest := by
  constructor
  · intro h
    match bs with
    | [] => simp [readHeader] at h
    | b :: r =>
        rw [readHeader] at h
        match hb : byteToType b with
        | none => rw [hb] at h; simp at h
        | some t2 =>
            rw [hb] at h
            match hp : parseLen r with
            | none => rw [hp] at h; simp at h
            | some (len2, rest2) =>
                rw [hp] at h
                simp only [Option.some.injEq, Prod.mk.injEq] at h
                obtain ⟨rfl, rfl, rfl⟩ := h
                rw [(byteToType_eq_some b t2).mp hb, parseLen_sound r len2 rest2 hp]
                simp
  · rintro rfl
    show (match byteToType t.tagByte with
      | some t => match parseLen (encLen len ++ rest) with
        | some (len, rest2) => some (t, len, rest2)
        | none => none
      | none => none) = some (t, len, rest)
    rw [(byteToType_eq_some t.tagByte t).mpr rfl, parseLen_encLen]

/-- Modelled from the spec: interpret DER integer content bytes as an
unsigned value fitting one byte: fails on non-minimal encodings and
negative values ("fails if the encoded integer does not fit in one byte
or has a non-zero sign-extension byte"). -/
def u8Content : List Nat → Option Nat
  | [v] => if v < 128 then some v else none
  | [z, v] => if z = 0 ∧ 128 ≤ v ∧ v < 256 then some v else none
  | _ => none

/-- Modelled from the spec: `to_u8` accessor of the DER reader: consume
exactly `len` bytes of integer content and fail unless they are the
minimal DER encoding of a value fitting one unsigned byte. -/
def readerToU8 (len : Nat) (bs : List Nat) : Option (Nat × List Nat) :=
  if len ≤ bs.length then
    match u8Content (bs.take len) with
    | some v => some (v, bs.drop len)
    | none => none
  else none

theorem u8Content_zero (c : List Nat) : u8Content c = some 0 ↔ c = [0] := by
  match c with
  | [] => simp [u8Content]
  | [v] =>
      rw [u8Content]
      by_cases hv : v < 128
      · simp [if_pos hv]
      · simp [if_neg hv]; omega
  | [z, v] =>
      rw [u8Content]
      by_cases hc : z = 0 ∧ 128 ≤ v ∧ v < 256
      · simp [if_pos hc]; omega
      · simp [if_neg hc]
  | _ :: _ :: _ :: _ => simp [u8Content]

theorem readerToU8_zero (len : Nat) (bs : List Nat) (rest : List Nat) :
    readerToU8 len bs = some (0, rest) ↔ len = 1 ∧ bs = 0 :: rest := by
  constructor
  · intro h
    rw [readerToU8] at h
    by_cases hle : len ≤ bs.length
    · rw [if_pos hle] at h
      match hu : u8Content (bs.take len) with
      | none => rw [hu] at h; simp at h
      | some v =>
          rw [hu] at h
          simp only [Option.some.injEq, Prod.mk.injEq] at h
          obtain ⟨rfl, rfl⟩ := h
          have hc : bs.take len = [0] := (u8Content_zero _).mp hu
          have hlen1 : len = 1 := by
            have := congrArg List.length hc
            simp [List.length_take] at this
            omega
          refine ⟨hlen1, ?_⟩
          subst hlen1
          have := List.take_append_drop 1 bs
          rw [hc] at this
          simpa using this.symm
    · rw [if_neg hle] at h; simp at h
  · rintro ⟨rfl, rfl⟩
    rw [readerToU8]
    simp [u8Content]

/-! ### Object identifiers (spec section 3 and X.690 8.19) -/

/-- Modelled from the spec: decode base-128 arcs; first value is split as
`arc0*40 + arc1`.  Rejects a `0x80` padding byte at the start of an arc
("decode must reject malformed base-128 continuations") and out-of-range
byte values.  `acc` is the value of the arc decoded so far, `atStart`
whether the cursor is at an arc boundary. -/
def oidArcs : List Nat → Nat → Bool → Option (List Nat)
  | [], _, atStart => if atStart then some [] else none
  | b :: rest, acc, atStart =>
    if 256 ≤ b then none
    else if atStart ∧ b = 128 then none
    else if b < 128 then
      match oidArcs rest 0 true with
      | some vs => some ((acc * 128 + b) :: vs)
      | none => none
    else oidArcs rest (acc * 128 + (b - 128)) false

/-- Modelled from the spec: decode an object-identifier content octet
string into its arcs. -/
def oidFromBytes (content : List Nat) : Option (List Nat) :=
  match oidArcs content 0 true with
  | some (v :: vs) => some (v / 40 :: v % 40 :: vs)
  | _ => none

/-- Modelled from the spec: `to_object_identifier` accessor of the DER
reader: consume exactly `len` content bytes and decode them as an OID. -/
def readerToOid (len : Nat) (bs : List Nat) : Option (List Nat × List Nat) :=
  if len ≤ bs.length then
    match oidFromBytes (bs.take len) with
    | some arcs => some (arcs, bs.drop len)
    | none => none
  else none

theorem readerToOid_eq_some (len : Nat) (bs : List Nat) (arcs : List Nat) (rest : List Nat) :
    readerToOid len bs = some (arcs, rest) ↔
      ∃ c, bs = c ++ rest ∧ c.length = len ∧ oidFromBytes c = some arcs := by
  constructor
  · intro h
    rw [readerToOid] at h
    by_cases hle : len ≤ bs.length
    · rw [if_pos hle] at h
      match ho : oidFromBytes (bs.take len) with
      | none => rw [ho] at h; simp at h
      | some arcs2 =>
          rw [ho] at h
          simp only [Option.some.injEq, Prod.mk.injEq] at h
          obtain ⟨rfl, rfl⟩ := h
          refine ⟨bs.take len, ?_, ?_, ho⟩
          · rw [List.take_append_drop]
          · rw [List.length_take]; omega
    · rw [if_neg hle] at h; simp at h
  · rintro ⟨c, rfl, rfl, ho⟩
    rw [readerToOid]
    rw [if_pos (by simp : c.length ≤ (c ++ rest).length)]
    rw [List.take_left, List.drop_left, ho]

/-- The arcs of the rsaEncryption object identifier `1.2.840.113549.1.1.1`
(`OID_RSA_ENCRYPTION` in the source). -/
def rsaOidArcs : List Nat := [1, 2, 840, 113549, 1, 1, 1]

/-! ### Object-identifier encoding (Builder side, spec section 4.2) -/

/-- Fuel-driven helper for `base128Digits`; the fuel only bounds the
recursion depth and never runs out when it starts at `n`. -/
def base128DigitsAux : Nat → Nat → List Nat
  | 0, n => [n]
  | fuel + 1, n => if n < 128 then [n] else base128DigitsAux fuel (n / 128) ++ [n % 128]

/-- Modelled from the spec: big-endian base-128 digits of a value (a single
zero digit for 0). -/
def base128Digits (n : Nat) : List Nat := base128DigitsAux n n

/-- Modelled from the spec: encode one arc value: base-128 digits with the
continuation bit set on all but the final byte. -/
def encodeArcDigits : List Nat → List Nat
  | [] => []
  | [d] => [d]
  | d :: rest => (d + 128) :: encodeArcDigits rest

/-- Modelled from the spec: content octets of an object identifier: first
two arcs combine as `arc0*40 + arc1`, remaining arcs follow. -/
def oidContent (arcs : List Nat) : List Nat :=
  match arcs with
  | a0 :: a1 :: rest => encodeArcDigits (base128Digits (a0 * 40 + a1)) ++
      (rest.map (fun a => encodeArcDigits (base128Digits a))).flatten
  | _ => []

/-- Content octets of the rsaEncryption OID. -/
def rsaOidContent : List Nat := oidContent rsaOidArcs

example : rsaOidContent = [0x2A, 0x86, 0x48, 0x86, 0xF7, 0x0D, 0x01, 0x01, 0x01] := by
  decide

example : oidFromBytes rsaOidContent = some rsaOidArcs := by decide

/-! ### DER Builder (spec section 4.2) -/

/-- Modelled from the spec: a stack of in-progress constructed elements:
each entry is the tag begun and the content accumulated so far; `out` is
the root output buffer. -/
structure DerBuilder where
  stack : List (Nat × List Nat)
  out : List Nat
deriving Repr

def DerBuilder.new : DerBuilder := ⟨[], []⟩

/-- Append raw bytes to the innermost open element (or the root output). -/
def DerBuilder.appendBytes (b : DerBuilder) (bs : List Nat) : DerBuilder :=
  match b.stack with
  | [] => { b with out := b.out ++ bs }
  | (t, buf) :: rest => { b with stack := (t, buf ++ bs) :: rest }

/-- Modelled from the spec: `begin(tag)` pushes a new buffer for nested
content. -/
def DerBuilder.begin (b : DerBuilder) (t : DerType) : DerBuilder :=
  { b with stack := (t.tagByte, []) :: b.stack }

/-- Modelled from the spec: `end()` pops the top buffer, computes its
definite-form length prefix, and appends `[tag][length][content]` to the
parent buffer (or the root output).  Calling it with no open element is a
caller error and never happens in this module. -/
def DerBuilder.endElement (b : DerBuilder) : DerBuilder :=
  match b.stack with
  | [] => b
  | (t, buf) :: rest =>
      DerBuilder.appendBytes { b with stack := rest } (t :: encLen buf.length ++ buf)

/-- Modelled from the spec: strip leading zero bytes of a big-endian
integer down to the minimal representation. -/
def stripLeadingZeros : List Nat → List Nat
  | 0 :: rest => stripLeadingZeros rest
  | l => l

/-- Modelled from the spec: DER integer content octets for a big-endian
unsigned value: minimal representation, `0x00` prepended when the high bit
of the first byte is set and the caller did not declare the value already
signed. -/
def intContent (bs : List Nat) (signed : Bool) : List Nat :=
  match stripLeadingZeros bs with
  | [] => [0]
  | b :: rest => if !signed ∧ 128 ≤ b then 0 :: b :: rest else b :: rest

/-- Modelled from the spec: `append_integer_from_u8`. -/
def DerBuilder.appendIntegerFromU8 (b : DerBuilder) (v : Nat) : DerBuilder :=
  b.appendBytes (DerType.Integer.tagByte ::
    encLen (intContent [v] false).length ++ intContent [v] false)

/-- Modelled from the spec: `append_integer_from_be_slice`. -/
def DerBuilder.appendIntegerFromBeSlice (b : DerBuilder) (bs : List Nat) (signed : Bool) :
    DerBuilder :=
  b.appendBytes (DerType.Integer.tagByte ::
    encLen (intContent bs signed).length ++ intContent bs signed)

/-- Modelled from the spec: `append_object_identifier`. -/
def DerBuilder.appendObjectIdentifier (b : DerBuilder) (arcs : List Nat) : DerBuilder :=
  b.appendBytes (DerType.ObjectIdentifier.tagByte ::
    encLen (oidContent arcs).length ++ oidContent arcs)

/-- Modelled from the spec: `append_null` (Null always has empty content). -/
def DerBuilder.appendNull (b : DerBuilder) : DerBuilder :=
  b.appendBytes [DerType.Null.tagByte, 0]

/-- Modelled from the spec: `append_octed_string_from_slice` (the source
spelling). -/
def DerBuilder.appendOctedStringFromSlice (b : DerBuilder) (bs : List Nat) : DerBuilder :=
  b.appendBytes (DerType.OctetString.tagByte :: encLen bs.length ++ bs)

/-- Modelled from the spec: `append_bit_string_from_slice`: the
"unused trailing bits" count is the first content byte. -/
def DerBuilder.appendBitStringFromSlice (b : DerBuilder) (bs : List Nat) (unused : Nat) :
    DerBuilder :=
  b.appendBytes (DerType.BitString.tagByte :: encLen (bs.length + 1) ++ unused :: bs)

/-- Modelled from the spec: `build()` finalizes and returns the output
buffer. -/
def DerBuilder.build (b : DerBuilder) : List Nat := b.out

/-! ### The PKCS8 adapter (`RsaKeyPair::detect_pkcs8` / `RsaKeyPair::to_pkcs8`,
translated from `src/jwk/key_pair/rsa.rs`) -/

/-- Translated from the source: the version block of
`RsaKeyPair::detect_pkcs8` (lines 279-292): when `is_public` is false an
Integer whose `to_u8` value must be 0 is consumed; when `is_public` is
true nothing is read.  Returns the remaining buffer. -/
def detect_version (is_public : Bool) (r1 : List Nat) : Option (List Nat) :=
  if is_public then some r1
  else
    match readHeader r1 with
    | some (DerType.Integer, len, r) =>
      match readerToU8 len r with
      | some (v, r2) => if v = 0 then some r2 else none
      | none => none
    | _ => none

/-- Translated from the source: `RsaKeyPair::detect_pkcs8`.  Walks the DER
headers: outer Sequence; when `is_public` is false an Integer whose `to_u8`
value must be 0; the AlgorithmIdentifier Sequence; an ObjectIdentifier that
must decode to rsaEncryption; a Null.  Returns `some ()` on a match and
`none` on any deviation; it never fails. -/
def detect_pkcs8 (input : List Nat) (is_public : Bool) : Option Unit :=
  match readHeader input with
  | some (DerType.Sequence, _, r1) =>
    match detect_version is_public r1 with
    | some r2 =>
      match readHeader r2 with
      | some (DerType.Sequence, _, r3) =>
        match readHeader r3 with
        | some (DerType.ObjectIdentifier, len, r4) =>
          match readerToOid len r4 with
          | some (val, r5) =>
            if val = rsaOidArcs then
              match readHeader r5 with
              | some (DerType.Null, _, _) => some ()
              | _ => none
            else none
          | none => none
        | _ => none
      | _ => none
    | none => none
  | _ => none

/-- Translated from the source: `RsaKeyPair::to_pkcs8`.  Drives the DER
builder exactly as the source does. -/
def to_pkcs8 (input : List Nat) (is_public : Bool) : List Nat :=
  let b := DerBuilder.new
  let b := b.begin DerType.Sequence
  let b := if is_public then b else b.appendIntegerFromU8 0
  let b := b.begin DerType.Sequence
  let b := b.appendObjectIdentifier rsaOidArcs
  let b := b.appendNull
  let b := b.endElement
  let b := if is_public then b.appendBitStringFromSlice input 0
           else b.appendOctedStringFromSlice input
  let b := b.endElement
  b.build

/-- A DER element as the builder lays it out: tag byte, definite-form
length, content. -/
def derElem (t : DerType) (content : List Nat) : List Nat :=
  t.tagByte :: encLen content.length ++ content

/-- The DER bytes of the AlgorithmIdentifier `Sequence { rsaEncryption,
Null }`. -/
def algIdBytes : List Nat :=
  derElem DerType.Sequence (derElem DerType.ObjectIdentifier rsaOidContent ++
    [DerType.Null.tagByte, 0])

example : detect_pkcs8 (to_pkcs8 [0x99] false) false = some () := by decide

example : detect_pkcs8 (to_pkcs8 [0x99] true) true = some () := by decide

example : detect_pkcs8 (to_pkcs8 [0x99] false) true = none := by decide


/-! ### Characterization of `detect_pkcs8` -/

theorem encLen_one : encLen 1 = [1] := by decide

/-- Reading a header laid out as tag/length/rest succeeds. -/
theorem readHeader_prefix (t : DerType) (n : Nat) (rest : List Nat) :
    readHeader (t.tagByte :: encLen n ++ rest) = some (t, n, rest) :=
  (readHeader_eq_some _ t n rest).mpr rfl

theorem detect_version_eq_some (is_public : Bool) (r1 r2 : List Nat) :
    detect_version is_public r1 = some r2 ↔
      r1 = (if is_public then [] else [2, 1, 0]) ++ r2 := by
  cases is_public with
  | true => simp [detect_version]
  | false =>
      simp only [detect_version, Bool.false_eq_true, if_false, List.cons_append,
        List.nil_append]
      constructor
      · intro h
        split at h
        case _ x ilen ri heq2 =>
          split at h
          case _ v r2h heq3 =>
            split at h
            case isTrue hv =>
              subst hv
              simp only [Option.some.injEq] at h
              subst h
              obtain ⟨hilen, hri⟩ := (readerToU8_zero ilen ri r2h).mp heq3
              subst hilen
              have hr1 := (readHeader_eq_some r1 DerType.Integer 1 ri).mp heq2
              rw [hr1, hri, encLen_one]
              simp [DerType.tagByte]
            case isFalse hv => simp at h
          case _ heq3 => simp at h
        case _ hne => simp at h
      · rintro rfl
        have hsh : (2 : Nat) :: 1 :: 0 :: r2 =
            DerType.Integer.tagByte :: encLen 1 ++ (0 :: r2) := by
          rw [encLen_one]; rfl
        rw [hsh, readHeader_prefix]
        have hu8 : readerToU8 1 (0 :: r2) = some (0, r2) :=
          (readerToU8_zero 1 (0 :: r2) r2).mpr ⟨rfl, rfl⟩
        simp [hu8]

/-- `detect_pkcs8` matches exactly the buffers that begin with the PKCS#8
header prefix: outer Sequence header, the version integer 0 (private
only), the AlgorithmIdentifier Sequence header, a correctly encoded
rsaEncryption object identifier, and a Null header.  Nothing after the
Null header — in particular the key-bytes field and any trailing data —
is examined, and the declared lengths of the constructed elements and of
the Null are not checked against the actual content. -/
theorem detect_pkcs8_iff (input : List Nat) (is_public : Bool) :
    detect_pkcs8 input is_public = some () ↔
      ∃ n1 n2 oidLen nullLen c tail,
        input = DerType.Sequence.tagByte :: encLen n1 ++
          ((if is_public then [] else [2, 1, 0]) ++
            (DerType.Sequence.tagByte :: encLen n2 ++
              (DerType.ObjectIdentifier.tagByte :: encLen oidLen ++
                (c ++ (DerType.Null.tagByte :: encLen nullLen ++ tail))))) ∧
        c.length = oidLen ∧ oidFromBytes c = some rsaOidArcs := by
  constructor
  · intro h
    rw [detect_pkcs8] at h
    split at h
    case _ x n1 r1 heq1 =>
      split at h
      case _ r2 heq2 =>
        split at h
        case _ x2 n2 r3 heq4 =>
          split at h
          case _ x3 oidLen r4 heq5 =>
            split at h
            case _ val r5 heq6 =>
              split at h
              case isTrue hval =>
                subst hval
                split at h
                case _ x4 nullLen r6 heq7 =>
                  obtain ⟨c, hr4, hclen, hcoid⟩ :=
                    (readerToOid_eq_some oidLen r4 rsaOidArcs r5).mp heq6
                  refine ⟨n1, n2, oidLen, nullLen, c, r6, ?_, hclen, hcoid⟩
                  rw [(readHeader_eq_some input DerType.Sequence n1 r1).mp heq1,
                    (detect_version_eq_some is_public r1 r2).mp heq2,
                    (readHeader_eq_some r2 DerType.Sequence n2 r3).mp heq4,
                    (readHeader_eq_some r3 DerType.ObjectIdentifier oidLen r4).mp heq5,
                    hr4, (readHeader_eq_some r5 DerType.Null nullLen r6).mp heq7]
                case _ hne => simp at h
              case isFalse hval => simp at h
            case _ heq6 => simp at h
          case _ hne => simp at h
        case _ hne => simp at h
      case _ hs => simp at h
    case _ hne => simp at h
  · rintro ⟨n1, n2, oidLen, nullLen, c, tail, rfl, hclen, hcoid⟩
    set R3 : List Nat := DerType.Null.tagByte :: encLen nullLen ++ tail with hR3
    set R2 : List Nat :=
      DerType.ObjectIdentifier.tagByte :: encLen oidLen ++ (c ++ R3) with hR2
    set R1 : List Nat := DerType.Sequence.tagByte :: encLen n2 ++ R2 with hR1
    set R0 : List Nat := (if is_public then [] else [2, 1, 0]) ++ R1 with hR0
    have h1 : readHeader (DerType.Sequence.tagByte :: encLen n1 ++ R0) =
        some (DerType.Sequence, n1, R0) := readHeader_prefix _ _ _
    have h2 : detect_version is_public R0 = some R1 :=
      (detect_version_eq_some is_public R0 R1).mpr hR0
    have h3 : readHeader R1 = some (DerType.Sequence, n2, R2) := by
      rw [hR1]; exact readHeader_prefix _ _ _
    have h4 : readHeader R2 = some (DerType.ObjectIdentifier, oidLen, c ++ R3) := by
      rw [hR2]; exact readHeader_prefix _ _ _
    have h5 : readerToOid oidLen (c ++ R3) = some (rsaOidArcs, R3) :=
      (readerToOid_eq_some _ _ _ _).mpr ⟨c, rfl, hclen, hcoid⟩
    have h6 : readHeader R3 = some (DerType.Null, nullLen, tail) := by
      rw [hR3]; exact readHeader_prefix _ _ _
    rw [detect_pkcs8]
    rw [h1]
    simp only [h2, h3, h4, h5, h6]
    simp

/-! ### Shape of `to_pkcs8` -/

/-- The private-key envelope: the builder trace of `to_pkcs8 input false`
produces exactly Sequence { Integer 0, AlgorithmIdentifier, OctetString
input }. -/
theorem to_pkcs8_false_eq (input : List Nat) :
    to_pkcs8 input false =
      derElem DerType.Sequence
        ([2, 1, 0] ++ algIdBytes ++ derElem DerType.OctetString input) := by
  simp [to_pkcs8, DerBuilder.new, DerBuilder.begin, DerBuilder.endElement,
    DerBuilder.appendBytes, DerBuilder.appendIntegerFromU8,
    DerBuilder.appendObjectIdentifier, DerBuilder.appendNull,
    DerBuilder.appendOctedStringFromSlice, DerBuilder.build, derElem,
    algIdBytes, rsaOidContent, intContent, stripLeadingZeros, DerType.tagByte,
    encLen_one]

/-- The public-key envelope: the builder trace of `to_pkcs8 input true`
produces exactly Sequence { AlgorithmIdentifier, BitString with zero
unused bits }. -/
theorem to_pkcs8_true_eq (input : List Nat) :
    to_pkcs8 input true =
      derElem DerType.Sequence
        (algIdBytes ++ derElem DerType.BitString (0 :: input)) := by
  simp [to_pkcs8, DerBuilder.new, DerBuilder.begin, DerBuilder.endElement,
    DerBuilder.appendBytes, DerBuilder.appendObjectIdentifier,
    DerBuilder.appendNull, DerBuilder.appendBitStringFromSlice,
    DerBuilder.build, derElem, algIdBytes, rsaOidContent, DerType.tagByte]

/-- Every envelope `to_pkcs8` builds is recognized by `detect_pkcs8` with
the same `is_public` flag. -/
theorem detect_to_pkcs8 (input : List Nat) (is_public : Bool) :
    detect_pkcs8 (to_pkcs8 input is_public) is_public = some () := by
  cases is_public with
  | false =>
      rw [to_pkcs8_false_eq]
      apply (detect_pkcs8_iff _ false).mpr
      refine ⟨([2, 1, 0] ++ algIdBytes ++ derElem DerType.OctetString input).length,
        (derElem DerType.ObjectIdentifier rsaOidContent ++
          [DerType.Null.tagByte, 0]).length, rsaOidContent.length, 0,
        rsaOidContent, derElem DerType.OctetString input, ?_, rfl, by decide⟩
      simp [derElem, algIdBytes, DerType.tagByte]
      rfl
  | true =>
      rw [to_pkcs8_true_eq]
      apply (detect_pkcs8_iff _ true).mpr
      refine ⟨(algIdBytes ++ derElem DerType.BitString (0 :: input)).length,
        (derElem DerType.ObjectIdentifier rsaOidContent ++
          [DerType.Null.tagByte, 0]).length, rsaOidContent.length, 0,
        rsaOidContent, derElem DerType.BitString (0 :: input), ?_, rfl, by decide⟩
      simp [derElem, algIdBytes, DerType.tagByte]
      rfl

/-! ### base64url without padding (the `base64` crate's `URL_SAFE_NO_PAD`,
an external collaborator; RFC 4648 section 5) -/

/-- The base64url alphabet character for an index below 64. -/
def b64Char (i : Nat) : Char :=
  if i < 26 then Char.ofNat (65 + i)
  else if i < 52 then Char.ofNat (97 + (i - 26))
  else if i < 62 then Char.ofNat (48 + (i - 52))
  else if i = 62 then Char.ofNat 45
  else Char.ofNat 95

/-- The index of a base64url alphabet character, `none` for characters
outside the alphabet. -/
def b64Index (c : Char) : Option Nat :=
  if 65 ≤ c.toNat ∧ c.toNat ≤ 90 then some (c.toNat - 65)
  else if 97 ≤ c.toNat ∧ c.toNat ≤ 122 then some (c.toNat - 97 + 26)
  else if 48 ≤ c.toNat ∧ c.toNat ≤ 57 then some (c.toNat - 48 + 52)
  else if c.toNat = 45 then some 62
  else if c.toNat = 95 then some 63
  else none

theorem b64Index_b64Char (i : Nat) (h : i < 64) : b64Index (b64Char i) = some i := by
  interval_cases i <;> decide

/-- Encode bytes in base64url without padding: 3-byte groups become 4
characters; a final group of 1 or 2 bytes becomes 2 or 3 characters. -/
def b64EncodeChunks : List Nat → List Char
  | [] => []
  | [b1] => [b64Char (b1 / 4), b64Char (b1 % 4 * 16)]
  | [b1, b2] => [b64Char (b1 / 4), b64Char (b1 % 4 * 16 + b2 / 16),
      b64Char (b2 % 16 * 4)]
  | b1 :: b2 :: b3 :: rest => b64Char (b1 / 4) ::
      b64Char (b1 % 4 * 16 + b2 / 16) :: b64Char (b2 % 16 * 4 + b3 / 64) ::
      b64Char (b3 % 64) :: b64EncodeChunks rest

/-- Decode base64url without padding; `none` on a bad character or an
impossible length. -/
def b64DecodeChunks : List Char → Option (List Nat)
  | [] => some []
  | [_] => none
  | [c1, c2] =>
    match b64Index c1, b64Index c2 with
    | some i1, some i2 => some [i1 * 4 + i2 / 16]
    | _, _ => none
  | [c1, c2, c3] =>
    match b64Index c1, b64Index c2, b64Index c3 with
    | some i1, some i2, some i3 => some [i1 * 4 + i2 / 16, i2 % 16 * 16 + i3 / 4]
    | _, _, _ => none
  | c1 :: c2 :: c3 :: c4 :: rest =>
    match b64Index c1, b64Index c2, b64Index c3, b64Index c4,
        b64DecodeChunks rest with
    | some i1, some i2, some i3, some i4, some bs =>
        some ((i1 * 4 + i2 / 16) :: (i2 % 16 * 16 + i3 / 4) ::
          (i3 % 4 * 64 + i4) :: bs)
    | _, _, _, _, _ => none

/-- `base64::encode_config(_, URL_SAFE_NO_PAD)` as a string. -/
def b64UrlEncode (bs : List Nat) : String := String.mk (b64EncodeChunks bs)

/-- `base64::decode_config(_, URL_SAFE_NO_PAD)` from a string. -/
def b64UrlDecode (s : String) : Option (List Nat) := b64DecodeChunks s.data

/-- Decoding inverts encoding on byte lists. -/
theorem b64DecodeChunks_b64EncodeChunks (bs : List Nat) (h : ∀ b ∈ bs, b < 256) :
    b64DecodeChunks (b64EncodeChunks bs) = some bs := by
  induction bs using b64EncodeChunks.induct with
  | case1 => rfl
  | case2 b1 =>
      have hb1 : b1 < 256 := h b1 (by simp)
      rw [b64EncodeChunks, b64DecodeChunks]
      rw [b64Index_b64Char _ (by omega), b64Index_b64Char _ (by omega)]
      simp only [Option.some.injEq, List.cons.injEq, and_true]
      omega
  | case3 b1 b2 =>
      have hb1 : b1 < 256 := h b1 (by simp)
      have hb2 : b2 < 256 := h b2 (by simp)
      rw [b64EncodeChunks, b64DecodeChunks]
      rw [b64Index_b64Char _ (by omega), b64Index_b64Char _ (by omega),
        b64Index_b64Char _ (by omega)]
      simp only [Option.some.injEq, List.cons.injEq, and_true]
      constructor <;> omega
  | case4 b1 b2 b3 rest ih =>
      have hb1 : b1 < 256 := h b1 (by simp)
      have hb2 : b2 < 256 := h b2 (by simp)
      have hb3 : b3 < 256 := h b3 (by simp)
      have hrest : ∀ b ∈ rest, b < 256 := fun b hb => h b (by simp [hb])
      rw [b64EncodeChunks]
      have hne : b64EncodeChunks rest ≠ [] ∨ rest = [] := by
        match rest with
        | [] => exact Or.inr rfl
        | [x] => left; rw [b64EncodeChunks]; simp
        | [x, y] => left; rw [b64EncodeChunks]; simp
        | x :: y :: z :: r => left; rw [b64EncodeChunks]; simp
      rw [b64DecodeChunks]
      rw [b64Index_b64Char _ (by omega), b64Index_b64Char _ (by omega),
        b64Index_b64Char _ (by omega), b64Index_b64Char _ (by omega),
        ih hrest]
      simp only [Option.some.injEq, List.cons.injEq]
      refine ⟨by omega, by omega, by omega, trivial⟩

theorem b64UrlDecode_b64UrlEncode (bs : List Nat) (h : ∀ b ∈ bs, b < 256) :
    b64UrlDecode (b64UrlEncode bs) = some bs := by
  rw [b64UrlEncode, b64UrlDecode]
  exact b64DecodeChunks_b64EncodeChunks bs h

/-! ### The JWK JSON-object abstraction (spec section 6) -/

/-- Modelled from the spec: a JSON value held by a JWK parameter.  The
module only ever distinguishes strings from everything else
("validating value type (must be a string) at each access"), so
non-string JSON values are represented by one constructor. -/
inductive JsonValue where
  | str (s : String)
  | other
deriving DecidableEq, Repr

/-- Modelled from the spec: the JWK JSON-object abstraction: "an opaque
mapping with string keys and JSON-typed values" plus a key-type tag kept
in the same map under `kty`. -/
structure Jwk where
  params : List (String × JsonValue)
deriving DecidableEq, Repr

/-- Modelled from the spec: `Jwk::new(kty)` starts a map holding only the
key-type tag. -/
def Jwk.new (kty : String) : Jwk := ⟨[("kty", JsonValue.str kty)]⟩

/-- Modelled from the spec: `Jwk::parameter(name)`. -/
def Jwk.parameter (jwk : Jwk) (name : String) : Option JsonValue :=
  jwk.params.lookup name

/-- Modelled from the spec: `Jwk::key_type()`: the `kty` tag. -/
def Jwk.key_type (jwk : Jwk) : String :=
  match jwk.parameter "kty" with
  | some (JsonValue.str s) => s
  | _ => ""

/-- Modelled from the spec: `Jwk::set_parameter(name, value)`: replace or
remove the binding for `name`. -/
def Jwk.set_parameter (jwk : Jwk) (name : String) (v : Option JsonValue) : Jwk :=
  match v with
  | some val => ⟨jwk.params.filter (fun pr => pr.1 != name) ++ [(name, val)]⟩
  | none => ⟨jwk.params.filter (fun pr => pr.1 != name)⟩

/-- Modelled from the spec: `Jwk::set_algorithm(value)`. -/
def Jwk.set_algorithm (jwk : Jwk) (v : String) : Jwk :=
  jwk.set_parameter "alg" (some (JsonValue.str v))

/-! ### Key material and errors -/

/-- Modelled from the spec: the component byte buffers the crypto
collaborator exposes for a loaded RSA private key ("expose
modulus/exponent/prime/CRT-coefficient components as big-endian byte
buffers"). -/
structure RsaComponents where
  n : List Nat
  e : List Nat
  d : List Nat
  p : List Nat
  q : List Nat
  dp : List Nat
  dq : List Nat
  qi : List Nat
deriving DecidableEq, Repr

/-- Translated from the source: the `RsaKeyPair` struct: the loaded
private-key handle (modelled by its exposed components), the cached
modulus byte length, and the optional algorithm label. -/
structure RsaKeyPair where
  private_key : RsaComponents
  key_len : Nat
  alg : Option String
deriving DecidableEq, Repr

/-- Modelled from the spec: the library's error enum.  This module only
constructs `InvalidKeyFormat` ("single error kind surfaced to callers");
the other kinds belong to other modules of the library. -/
inductive JoseError where
  | InvalidKeyFormat (cause : String)
  | InvalidSignature (cause : String)
  | InvalidJwtFormat (cause : String)
deriving DecidableEq, Repr

/-- The `map_err(|err| JoseError::InvalidKeyFormat(err))` boundary at the
end of every fallible entry point. -/
def wrapKeyFormat {α : Type} : Except String α → Except JoseError α
  | Except.ok a => Except.ok a
  | Except.error e => Except.error (JoseError.InvalidKeyFormat e)

/-- A collaborator signature: `PKey::private_key_from_der` composed with
`.rsa()`, yielding the exposed components of the loaded key. -/
def LoadFn : Type := List Nat → Except String RsaComponents

/-! ### `RsaKeyPair` constructors (translated from the source) -/

/-- Translated from the source: `RsaKeyPair::generate(bits)` with the
collaborator `Rsa::generate`/`PKey::from_rsa` abstracted as `gen`;
`key_len` is the collaborator-derived modulus byte length. -/
def RsaKeyPair.generate (gen : Nat → Except String RsaComponents) (bits : Nat) :
    Except JoseError RsaKeyPair :=
  wrapKeyFormat (match gen bits with
    | Except.ok rsa => Except.ok ⟨rsa, rsa.n.length, none⟩
    | Except.error err => Except.error err)

/-- Translated from the source: the byte-level dispatch of
`RsaKeyPair::from_der` (lines 63-70): the exact bytes handed to the
crypto collaborator. -/
def from_der_input (input : List Nat) : List Nat :=
  match detect_pkcs8 input false with
  | some _ => input
  | none => to_pkcs8 input false

/-- Translated from the source: `RsaKeyPair::from_der` with the loading
collaborator abstracted as `load`. -/
def RsaKeyPair.from_der (load : LoadFn) (input : List Nat) :
    Except JoseError RsaKeyPair :=
  wrapKeyFormat (match load (from_der_input input) with
    | Except.ok rsa => Except.ok ⟨rsa, rsa.n.length, none⟩
    | Except.error err => Except.error err)

/-- Translated from the source: the label dispatch of
`RsaKeyPair::from_pem` (lines 100-110): which bytes reach the
collaborator, or which error message is raised. -/
def from_pem_dispatch (alg : String) (data : List Nat) : Except String (List Nat) :=
  if alg = "PRIVATE KEY" then
    match detect_pkcs8 data false with
    | some _ => Except.ok data
    | none => Except.error "Invalid PEM contents."
  else if alg = "RSA PRIVATE KEY" then Except.ok (to_pkcs8 data false)
  else Except.error ("Inappropriate algorithm: " ++ alg)

/-- Translated from the source: `RsaKeyPair::from_pem`, with the PEM
parsing collaborator (`util::parse_pem`) abstracted as `parse_pem` and the
loading collaborator as `load`. -/
def RsaKeyPair.from_pem (parse_pem : List Nat → Except String (String × List Nat))
    (load : LoadFn) (input : List Nat) : Except JoseError RsaKeyPair :=
  wrapKeyFormat (match parse_pem input with
    | Except.error err => Except.error err
    | Except.ok (alg, data) =>
      match from_pem_dispatch alg data with
      | Except.error err => Except.error err
      | Except.ok pkcs8 =>
        match load pkcs8 with
        | Except.ok rsa => Except.ok ⟨rsa, rsa.n.length, none⟩
        | Except.error err => Except.error err)

/-- Translated from the source: the parameter-extraction pattern repeated
in `RsaKeyPair::from_jwk` for each of the eight parameters: present as a
JSON string and base64url-decodable, with the source's error messages. -/
def jwk_param_bytes (jwk : Jwk) (name : String) : Except String (List Nat) :=
  match jwk.parameter name with
  | some (JsonValue.str val) =>
    match b64UrlDecode val with
    | some bs => Except.ok bs
    | none => Except.error "Invalid base64 sequence."
  | some _ => Except.error ("A parameter " ++ name ++ " must be a string.")
  | none => Except.error ("A parameter " ++ name ++ " is required.")

/-- Translated from the source: the PKCS#1 `RSAPrivateKey` sequence built
by `from_jwk` (lines 176-189): version 0 then the eight integers, each
sign-padded by the builder. -/
def build_pkcs1 (n e d p q dp dq qi : List Nat) : List Nat :=
  let b := DerBuilder.new
  let b := b.begin DerType.Sequence
  let b := b.appendIntegerFromU8 0
  let b := b.appendIntegerFromBeSlice n false
  let b := b.appendIntegerFromBeSlice e false
  let b := b.appendIntegerFromBeSlice d false
  let b := b.appendIntegerFromBeSlice p false
  let b := b.appendIntegerFromBeSlice q false
  let b := b.appendIntegerFromBeSlice dp false
  let b := b.appendIntegerFromBeSlice dq false
  let b := b.appendIntegerFromBeSlice qi false
  let b := b.endElement
  b.build

/-- Translated from the source: the fallible body of
`RsaKeyPair::from_jwk` before the `map_err` boundary. -/
def from_jwk_inner (load : LoadFn) (jwk : Jwk) : Except String RsaKeyPair :=
  if jwk.key_type = "RSA" then
    match jwk_param_bytes jwk "n" with
    | Except.error err => Except.error err
    | Except.ok n =>
      match jwk_param_bytes jwk "e" with
      | Except.error err => Except.error err
      | Except.ok e =>
        match jwk_param_bytes jwk "d" with
        | Except.error err => Except.error err
        | Except.ok d =>
          match jwk_param_bytes jwk "p" with
          | Except.error err => Except.error err
          | Except.ok p =>
            match jwk_param_bytes jwk "q" with
            | Except.error err => Except.error err
            | Except.ok q =>
              match jwk_param_bytes jwk "dp" with
              | Except.error err => Except.error err
              | Except.ok dp =>
                match jwk_param_bytes jwk "dq" with
                | Except.error err => Except.error err
                | Except.ok dq =>
                  match jwk_param_bytes jwk "qi" with
                  | Except.error err => Except.error err
                  | Except.ok qi =>
                    match load (to_pkcs8 (build_pkcs1 n e d p q dp dq qi) false) with
                    | Except.ok rsa => Except.ok ⟨rsa, rsa.n.length, none⟩
                    | Except.error err => Except.error err
  else Except.error ("A parameter kty must be RSA: " ++ jwk.key_type)

/-- Translated from the source: `RsaKeyPair::from_jwk`. -/
def RsaKeyPair.from_jwk (load : LoadFn) (jwk : Jwk) : Except JoseError RsaKeyPair :=
  wrapKeyFormat (from_jwk_inner load jwk)

/-! ### `RsaKeyPair` output operations (translated from the source) -/

/-- Translated from the source: `RsaKeyPair::set_algorithm`. -/
def RsaKeyPair.set_algorithm (self : RsaKeyPair) (value : Option String) : RsaKeyPair :=
  { self with alg := value }

/-- Translated from the source: `KeyPair::algorithm` for `RsaKeyPair`. -/
def RsaKeyPair.algorithm (self : RsaKeyPair) : Option String := self.alg

/-- Translated from the source: `RsaKeyPair::to_jwk(private, _public)`.
The `_public` flag is accepted and never read, exactly as in the source. -/
def RsaKeyPair.to_jwk (self : RsaKeyPair) (priv : Bool) (_public : Bool) : Jwk :=
  let rsa := self.private_key
  let jwk := Jwk.new "RSA"
  let jwk := match self.alg with
    | some val => jwk.set_algorithm val
    | none => jwk
  let jwk := jwk.set_parameter "n" (some (JsonValue.str (b64UrlEncode rsa.n)))
  let jwk := jwk.set_parameter "e" (some (JsonValue.str (b64UrlEncode rsa.e)))
  if priv then
    let jwk := jwk.set_parameter "d" (some (JsonValue.str (b64UrlEncode rsa.d)))
    let jwk := jwk.set_parameter "p" (some (JsonValue.str (b64UrlEncode rsa.p)))
    let jwk := jwk.set_parameter "q" (some (JsonValue.str (b64UrlEncode rsa.q)))
    let jwk := jwk.set_parameter "dp" (some (JsonValue.str (b64UrlEncode rsa.dp)))
    let jwk := jwk.set_parameter "dq" (some (JsonValue.str (b64UrlEncode rsa.dq)))
    let jwk := jwk.set_parameter "qi" (some (JsonValue.str (b64UrlEncode rsa.qi)))
    jwk
  else jwk

/-- Translated from the source: `KeyPair::to_jwk_private_key`. -/
def RsaKeyPair.to_jwk_private_key (self : RsaKeyPair) : Jwk := self.to_jwk true false

/-- Translated from the source: `KeyPair::to_jwk_public_key`. -/
def RsaKeyPair.to_jwk_public_key (self : RsaKeyPair) : Jwk := self.to_jwk false true

/-- Translated from the source: `KeyPair::to_jwk_keypair`. -/
def RsaKeyPair.to_jwk_keypair (self : RsaKeyPair) : Jwk := self.to_jwk true true

/-- Translated from the source: `KeyPair::to_der_private_key`, which wraps
the collaborator-emitted PKCS#1 bytes (`to_raw_private_key`, abstracted
here as `raw_private_key`) with this module's `to_pkcs8`. -/
def to_der_private_key (raw_private_key : List Nat) : List Nat :=
  to_pkcs8 raw_private_key false

/-! ### Lookup lemmas for the Jwk map and `to_jwk` -/

theorem lookup_cons_ite (a k : String) (v : JsonValue)
    (l : List (String × JsonValue)) :
    List.lookup a ((k, v) :: l) = if a = k then some v else List.lookup a l := by
  by_cases h : a = k
  · simp [List.lookup_cons, h]
  · simp [List.lookup_cons, h, beq_false_of_ne h]

theorem lookup_filter_append (params : List (String × JsonValue))
    (name name2 : String) (v : JsonValue) :
    List.lookup name2 (params.filter (fun pr => pr.1 != name) ++ [(name, v)]) =
      if name2 = name then some v else List.lookup name2 params := by
  induction params with
  | nil =>
      simp only [List.filter_nil, List.nil_append, lookup_cons_ite, List.lookup_nil]
  | cons hd tl ih =>
      obtain ⟨k, val⟩ := hd
      by_cases hk : k = name
      · subst hk
        have hfilter : ((k, val) :: tl).filter (fun pr => pr.1 != k) =
            tl.filter (fun pr => pr.1 != k) := by
          simp [List.filter_cons]
        rw [hfilter, ih, lookup_cons_ite]
        by_cases h2 : name2 = k
        · simp [h2]
        · simp [h2]
      · have hfilter : ((k, val) :: tl).filter (fun pr => pr.1 != name) =
            (k, val) :: tl.filter (fun pr => pr.1 != name) := by
          simp [List.filter_cons, hk]
        rw [hfilter, List.cons_append, lookup_cons_ite, lookup_cons_ite]
        by_cases h2 : name2 = k
        · subst h2
          rw [if_pos rfl, if_pos rfl, if_neg hk]
        · rw [if_neg h2, if_neg h2, ih]

theorem parameter_set_parameter (jwk : Jwk) (name name2 : String) (v : JsonValue) :
    (jwk.set_parameter name (some v)).parameter name2 =
      if name2 = name then some v else jwk.parameter name2 := by
  simp only [Jwk.set_parameter, Jwk.parameter]
  exact lookup_filter_append jwk.params name name2 v

theorem parameter_new (kty name : String) :
    (Jwk.new kty).parameter name =
      if name = "kty" then some (JsonValue.str kty) else none := by
  simp only [Jwk.new, Jwk.parameter, lookup_cons_ite, List.lookup_nil]

set_option maxHeartbeats 1000000 in
/-- The parameter map `to_jwk` produces, expressed through lookups. -/
theorem to_jwk_parameter (kp : RsaKeyPair) (priv pub : Bool) (name : String) :
    (kp.to_jwk priv pub).parameter name =
      if name = "qi" then
        (if priv then some (JsonValue.str (b64UrlEncode kp.private_key.qi)) else none)
      else if name = "dq" then
        (if priv then some (JsonValue.str (b64UrlEncode kp.private_key.dq)) else none)
      else if name = "dp" then
        (if priv then some (JsonValue.str (b64UrlEncode kp.private_key.dp)) else none)
      else if name = "q" then
        (if priv then some (JsonValue.str (b64UrlEncode kp.private_key.q)) else none)
      else if name = "p" then
        (if priv then some (JsonValue.str (b64UrlEncode kp.private_key.p)) else none)
      else if name = "d" then
        (if priv then some (JsonValue.str (b64UrlEncode kp.private_key.d)) else none)
      else if name = "e" then some (JsonValue.str (b64UrlEncode kp.private_key.e))
      else if name = "n" then some (JsonValue.str (b64UrlEncode kp.private_key.n))
      else if name = "alg" then Option.map JsonValue.str kp.alg
      else if name = "kty" then some (JsonValue.str "RSA")
      else none := by
  cases h : kp.alg with
  | none =>
      cases priv <;>
        (simp only [RsaKeyPair.to_jwk, h, Jwk.set_algorithm]
         simp only [Bool.false_eq_true, if_true, if_false, ite_true, ite_false]
         simp [parameter_set_parameter, parameter_new]
         all_goals (split_ifs <;> simp_all))
  | some v =>
      cases priv <;>
        (simp only [RsaKeyPair.to_jwk, h, Jwk.set_algorithm]
         simp only [Bool.false_eq_true, if_true, if_false, ite_true, ite_false]
         simp [parameter_set_parameter, parameter_new]
         all_goals (split_ifs <;> simp_all))

theorem to_jwk_key_type (kp : RsaKeyPair) (priv pub : Bool) :
    (kp.to_jwk priv pub).key_type = "RSA" := by
  rw [Jwk.key_type, to_jwk_parameter]
  simp

/-! ### Claim theorems -/

/-- C1 (counterexample): the claim asserts that `detect_pkcs8` returns
no-match for every input with missing top-level fields, "including absent
key bytes".  This buffer is `Sequence { Integer 0, AlgorithmIdentifier }`
with no key-bytes field at all, yet `detect_pkcs8` reports a match: the
code stops checking after the AlgorithmIdentifier's Null. -/
theorem c1_counterexample :
    detect_pkcs8 (derElem DerType.Sequence ([2, 1, 0] ++ algIdBytes)) false =
      some () := by decide

/-- C1 (amended): `detect_pkcs8(bytes, is_public)` returns a match exactly
when the buffer begins with the PKCS#8 header prefix — outer Sequence
header; Integer version 0 when `is_public` is false; AlgorithmIdentifier
Sequence header; an ObjectIdentifier element decoding to rsaEncryption; a
Null header.  Wrong version value, wrong OID or a missing Null therefore
yield no-match, and the function is total (never an error or panic); but
the key-bytes field, the Null's contents, any trailing data and the
declared lengths of the constructed elements are not examined, so absent
key bytes or trailing garbage still match. -/
theorem c1_detect_pkcs8_prefix_characterization (input : List Nat) (is_public : Bool) :
    detect_pkcs8 input is_public = some () ↔
      ∃ n1 n2 oidLen nullLen c tail,
        input = DerType.Sequence.tagByte :: encLen n1 ++
          ((if is_public then [] else [2, 1, 0]) ++
            (DerType.Sequence.tagByte :: encLen n2 ++
              (DerType.ObjectIdentifier.tagByte :: encLen oidLen ++
                (c ++ (DerType.Null.tagByte :: encLen nullLen ++ tail))))) ∧
        c.length = oidLen ∧ oidFromBytes c = some rsaOidArcs :=
  detect_pkcs8_iff input is_public

/-- C2: `to_pkcs8` is a pure function of its arguments; for `is_public =
false` it emits a Sequence beginning with the Integer 0 (`[2, 1, 0]` in
DER), then the AlgorithmIdentifier `Sequence { rsaEncryption, Null }`,
then the raw key bytes as an OctetString; for `is_public = true` it omits
the version and carries the raw key bytes as a BitString whose first
content byte (the unused-bits count) is 0. -/
theorem c2_to_pkcs8_envelope (input : List Nat) :
    to_pkcs8 input false =
      derElem DerType.Sequence
        ([2, 1, 0] ++ algIdBytes ++ derElem DerType.OctetString input) ∧
    to_pkcs8 input true =
      derElem DerType.Sequence
        (algIdBytes ++ derElem DerType.BitString (0 :: input)) :=
  ⟨to_pkcs8_false_eq input, to_pkcs8_true_eq input⟩

/-- C3: `from_der` runs `detect_pkcs8(input, false)` first; on a match the
input bytes are handed unchanged to the crypto collaborator, otherwise
exactly `to_pkcs8(input, false)` is handed over, and no third form is
possible.  `from_der_input` is the byte-level dispatch of
`RsaKeyPair::from_der`, and `RsaKeyPair.from_der` invokes the collaborator
on precisely these bytes. -/
theorem c3_from_der_dispatch (input : List Nat) (load : LoadFn) :
    (detect_pkcs8 input false = some () → from_der_input input = input) ∧
    (detect_pkcs8 input false = none → from_der_input input = to_pkcs8 input false) ∧
    (from_der_input input = input ∨ from_der_input input = to_pkcs8 input false) ∧
    RsaKeyPair.from_der load input =
      wrapKeyFormat (match load (from_der_input input) with
        | Except.ok rsa => Except.ok ⟨rsa, rsa.n.length, none⟩
        | Except.error err => Except.error err) := by
  refine ⟨?_, ?_, ?_, rfl⟩
  · intro h
    simp [from_der_input, h]
  · intro h
    simp [from_der_input, h]
  · match h : detect_pkcs8 input false with
    | some _ => left; simp [from_der_input, h]
    | none => right; simp [from_der_input, h]

/-- C3 witness: on a PKCS#8 buffer the dispatch is the identity; on a
non-PKCS#8 buffer it wraps. -/
theorem c3_witness :
    from_der_input (to_pkcs8 [1] false) = to_pkcs8 [1] false ∧
    from_der_input [1] = to_pkcs8 [1] false :=
  ⟨(c3_from_der_dispatch (to_pkcs8 [1] false) (fun _ => Except.error "")).1 (by decide),
   (c3_from_der_dispatch [1] (fun _ => Except.error "")).2.1 (by decide)⟩

/-- C5: `from_pem` dispatches on the parsed PEM label: "PRIVATE KEY"
succeeds only when `detect_pkcs8` matches (the bytes then reach the
collaborator unchanged) and otherwise fails with "Invalid PEM contents."
(the source message carries a trailing period); "RSA PRIVATE KEY" wraps
the bytes with `to_pkcs8` before loading; any other label fails with
"Inappropriate algorithm: " followed by that label. -/
theorem c5_from_pem_dispatch (parse_pem : List Nat → Except String (String × List Nat))
    (load : LoadFn) (input : List Nat) (label : String) (data : List Nat)
    (hp : parse_pem input = Except.ok (label, data)) :
    (label = "PRIVATE KEY" → detect_pkcs8 data false = some () →
      RsaKeyPair.from_pem parse_pem load input =
        wrapKeyFormat (match load data with
          | Except.ok rsa => Except.ok ⟨rsa, rsa.n.length, none⟩
          | Except.error err => Except.error err)) ∧
    (label = "PRIVATE KEY" → detect_pkcs8 data false = none →
      RsaKeyPair.from_pem parse_pem load input =
        Except.error (JoseError.InvalidKeyFormat "Invalid PEM contents.")) ∧
    (label = "RSA PRIVATE KEY" →
      RsaKeyPair.from_pem parse_pem load input =
        wrapKeyFormat (match load (to_pkcs8 data false) with
          | Except.ok rsa => Except.ok ⟨rsa, rsa.n.length, none⟩
          | Except.error err => Except.error err)) ∧
    (label ≠ "PRIVATE KEY" → label ≠ "RSA PRIVATE KEY" →
      RsaKeyPair.from_pem parse_pem load input =
        Except.error (JoseError.InvalidKeyFormat
          ("Inappropriate algorithm: " ++ label))) := by
  refine ⟨?_, ?_, ?_, ?_⟩
  · rintro rfl hdet
    simp [RsaKeyPair.from_pem, hp, from_pem_dispatch, hdet]
  · rintro rfl hdet
    simp [RsaKeyPair.from_pem, hp, from_pem_dispatch, hdet, wrapKeyFormat]
  · rintro rfl
    simp [RsaKeyPair.from_pem, hp, from_pem_dispatch]
  · intro h1 h2
    simp [RsaKeyPair.from_pem, hp, from_pem_dispatch, h1, h2, wrapKeyFormat]

/-- C5 witness: a PEM body labeled "EC PRIVATE KEY" fails with the
message naming the label; a "PRIVATE KEY" body whose bytes are not
PKCS#8 fails with "Invalid PEM contents.". -/
theorem c5_witness :
    RsaKeyPair.from_pem (fun _ => Except.ok ("EC PRIVATE KEY", [1]))
        (fun _ => Except.error "") [] =
      Except.error (JoseError.InvalidKeyFormat
        ("Inappropriate algorithm: " ++ "EC PRIVATE KEY")) ∧
    RsaKeyPair.from_pem (fun _ => Except.ok ("PRIVATE KEY", [1]))
        (fun _ => Except.error "") [] =
      Except.error (JoseError.InvalidKeyFormat "Invalid PEM contents.") :=
  ⟨(c5_from_pem_dispatch (fun _ => Except.ok ("EC PRIVATE KEY", [1]))
      (fun _ => Except.error "") [] "EC PRIVATE KEY" [1] rfl).2.2.2
      (by decide) (by decide),
   (c5_from_pem_dispatch (fun _ => Except.ok ("PRIVATE KEY", [1]))
      (fun _ => Except.error "") [] "PRIVATE KEY" [1] rfl).2.1 rfl (by decide)⟩

/-- C8: `to_jwk(private, public)` never reads the `public` flag (the two
results agree for both values); `kty` is always "RSA" and `n`/`e` are
always emitted; each of `d, p, q, dp, dq, qi` is emitted iff `private` is
true; and the three public entry points are the fixed projections
`to_jwk(true,false)`, `to_jwk(false,true)`, `to_jwk(true,true)` of this
one routine. -/
theorem c8_to_jwk_projections (kp : RsaKeyPair) (priv a b : Bool) :
    kp.to_jwk priv a = kp.to_jwk priv b ∧
    (kp.to_jwk priv a).key_type = "RSA" ∧
    (kp.to_jwk priv a).parameter "n" =
      some (JsonValue.str (b64UrlEncode kp.private_key.n)) ∧
    (kp.to_jwk priv a).parameter "e" =
      some (JsonValue.str (b64UrlEncode kp.private_key.e)) ∧
    ((kp.to_jwk priv a).parameter "d" ≠ none ↔ priv = true) ∧
    ((kp.to_jwk priv a).parameter "p" ≠ none ↔ priv = true) ∧
    ((kp.to_jwk priv a).parameter "q" ≠ none ↔ priv = true) ∧
    ((kp.to_jwk priv a).parameter "dp" ≠ none ↔ priv = true) ∧
    ((kp.to_jwk priv a).parameter "dq" ≠ none ↔ priv = true) ∧
    ((kp.to_jwk priv a).parameter "qi" ≠ none ↔ priv = true) ∧
    kp.to_jwk_private_key = kp.to_jwk true false ∧
    kp.to_jwk_public_key = kp.to_jwk false true ∧
    kp.to_jwk_keypair = kp.to_jwk true true := by
  refine ⟨rfl, to_jwk_key_type kp priv a, ?_, ?_, ?_, ?_, ?_, ?_, ?_, ?_, rfl, rfl, rfl⟩ <;>
    (rw [to_jwk_parameter]; cases priv <;> simp)

theorem wrapKeyFormat_cases {α : Type} (x : Except String α) :
    (∃ a, wrapKeyFormat x = Except.ok a) ∨
    (∃ c, wrapKeyFormat x = Except.error (JoseError.InvalidKeyFormat c)) := by
  cases x with
  | ok a => exact Or.inl ⟨a, rfl⟩
  | error e => exact Or.inr ⟨e, rfl⟩

/-- C9: each fallible entry point (`generate`, `from_der`, `from_pem`,
`from_jwk`) yields either a key pair or an error of the single kind
`InvalidKeyFormat` wrapping the underlying cause — never a finer-grained
error and never a partial result. -/
theorem c9_invalid_key_format_only (gen : Nat → Except String RsaComponents)
    (bits : Nat) (load : LoadFn)
    (parse_pem : List Nat → Except String (String × List Nat))
    (input : List Nat) (jwk : Jwk) :
    ((∃ kp, RsaKeyPair.generate gen bits = Except.ok kp) ∨
      (∃ c, RsaKeyPair.generate gen bits =
        Except.error (JoseError.InvalidKeyFormat c))) ∧
    ((∃ kp, RsaKeyPair.from_der load input = Except.ok kp) ∨
      (∃ c, RsaKeyPair.from_der load input =
        Except.error (JoseError.InvalidKeyFormat c))) ∧
    ((∃ kp, RsaKeyPair.from_pem parse_pem load input = Except.ok kp) ∨
      (∃ c, RsaKeyPair.from_pem parse_pem load input =
        Except.error (JoseError.InvalidKeyFormat c))) ∧
    ((∃ kp, RsaKeyPair.from_jwk load jwk = Except.ok kp) ∨
      (∃ c, RsaKeyPair.from_jwk load jwk =
        Except.error (JoseError.InvalidKeyFormat c))) :=
  ⟨wrapKeyFormat_cases _, wrapKeyFormat_cases _, wrapKeyFormat_cases _,
    wrapKeyFormat_cases _⟩

theorem from_jwk_inner_ok_alg (load : LoadFn) (jwk : Jwk) (kp : RsaKeyPair)
    (h : from_jwk_inner load jwk = Except.ok kp) : kp.alg = none := by
  rw [from_jwk_inner] at h
  split at h
  case isFalse => exact absurd h (by simp)
  case isTrue =>
    repeat' split at h
    all_goals
      first
        | (simp only [Except.ok.injEq] at h
           exact h ▸ rfl)
        | exact absurd h (by simp)

/-- C10: every constructor (`generate`, `from_der`, `from_pem`,
`from_jwk`) returns a key pair whose `algorithm()` is `None` — in
particular `from_jwk` discards any `alg` member of the input JWK — and
the `alg` parameter appears in `to_jwk` output exactly when the label was
installed by an explicit `set_algorithm` call. -/
theorem c10_algorithm_none (gen : Nat → Except String RsaComponents) (bits : Nat)
    (load : LoadFn) (parse_pem : List Nat → Except String (String × List Nat))
    (input : List Nat) (jwk : Jwk) (kp2 : RsaKeyPair) (s : String)
    (priv pub : Bool) :
    (∀ kp, RsaKeyPair.generate gen bits = Except.ok kp → kp.algorithm = none) ∧
    (∀ kp, RsaKeyPair.from_der load input = Except.ok kp → kp.algorithm = none) ∧
    (∀ kp, RsaKeyPair.from_pem parse_pem load input = Except.ok kp →
      kp.algorithm = none) ∧
    (∀ kp, RsaKeyPair.from_jwk load jwk = Except.ok kp → kp.algorithm = none) ∧
    (kp2.alg = none → (kp2.to_jwk priv pub).parameter "alg" = none) ∧
    ((kp2.set_algorithm (some s)).to_jwk priv pub).parameter "alg" =
      some (JsonValue.str s) := by
  refine ⟨?_, ?_, ?_, ?_, ?_, ?_⟩
  · intro kp h
    rw [RsaKeyPair.generate] at h
    cases hg : gen bits with
    | error e => rw [hg] at h; exact absurd h (by simp [wrapKeyFormat])
    | ok rsa =>
        rw [hg] at h
        simp only [wrapKeyFormat, Except.ok.injEq] at h
        exact h ▸ rfl
  · intro kp h
    rw [RsaKeyPair.from_der] at h
    cases hl : load (from_der_input input) with
    | error e => rw [hl] at h; exact absurd h (by simp [wrapKeyFormat])
    | ok rsa =>
        rw [hl] at h
        simp only [wrapKeyFormat, Except.ok.injEq] at h
        exact h ▸ rfl
  · intro kp h
    rw [RsaKeyPair.from_pem] at h
    cases hpp : parse_pem input with
    | error e => simp only [hpp] at h; exact absurd h (by simp [wrapKeyFormat])
    | ok pr =>
        obtain ⟨lab, dat⟩ := pr
        simp only [hpp] at h
        cases hd : from_pem_dispatch lab dat with
        | error e => simp only [hd] at h; exact absurd h (by simp [wrapKeyFormat])
        | ok pk =>
            simp only [hd] at h
            cases hl : load pk with
            | error e => simp only [hl] at h; exact absurd h (by simp [wrapKeyFormat])
            | ok rsa =>
                simp only [hl] at h
                simp only [wrapKeyFormat, Except.ok.injEq] at h
                exact h ▸ rfl
  · intro kp h
    rw [RsaKeyPair.from_jwk] at h
    cases hi : from_jwk_inner load jwk with
    | error e => rw [hi] at h; exact absurd h (by simp [wrapKeyFormat])
    | ok kp0 =>
        rw [hi] at h
        simp only [wrapKeyFormat, Except.ok.injEq] at h
        rw [RsaKeyPair.algorithm, ← h]
        exact from_jwk_inner_ok_alg load jwk kp0 hi
  · intro halg
    rw [to_jwk_parameter]
    simp [halg]
  · rw [to_jwk_parameter]
    simp [RsaKeyPair.set_algorithm]

/-- C10 witness: a generated pair and a pair loaded from a JWK that even
carries an `alg` member both report no algorithm; setting one makes it
appear in the JWK output. -/
theorem c10_witness :
    (⟨⟨[9], [3], [9], [9], [9], [9], [9], [9]⟩, 1, none⟩ : RsaKeyPair).algorithm
        = none ∧
    (⟨⟨[5], [5], [5], [5], [5], [5], [5], [5]⟩, 1, none⟩ : RsaKeyPair).algorithm
        = none ∧
    ((⟨⟨[9], [3], [9], [9], [9], [9], [9], [9]⟩, 1, none⟩ : RsaKeyPair).to_jwk
        true true).parameter "alg" = none :=
  ⟨(c10_algorithm_none (fun _ => Except.ok ⟨[9], [3], [9], [9], [9], [9], [9], [9]⟩)
      2048 (fun _ => Except.ok ⟨[5], [5], [5], [5], [5], [5], [5], [5]⟩)
      (fun _ => Except.error "") [] (Jwk.new "RSA")
      ⟨⟨[9], [3], [9], [9], [9], [9], [9], [9]⟩, 1, none⟩ "RS256" true true).1
      ⟨⟨[9], [3], [9], [9], [9], [9], [9], [9]⟩, 1, none⟩ rfl,
   (c10_algorithm_none (fun _ => Except.ok ⟨[9], [3], [9], [9], [9], [9], [9], [9]⟩)
      2048 (fun _ => Except.ok ⟨[5], [5], [5], [5], [5], [5], [5], [5]⟩)
      (fun _ => Except.ok ("PRIVATE KEY", to_pkcs8 [1] false)) []
      (⟨[("kty", JsonValue.str "RSA"), ("alg", JsonValue.str "RS256"),
         ("n", JsonValue.str "BQ"), ("e", JsonValue.str "BQ"),
         ("d", JsonValue.str "BQ"), ("p", JsonValue.str "BQ"),
         ("q", JsonValue.str "BQ"), ("dp", JsonValue.str "BQ"),
         ("dq", JsonValue.str "BQ"), ("qi", JsonValue.str "BQ")]⟩ : Jwk)
      ⟨⟨[9], [3], [9], [9], [9], [9], [9], [9]⟩, 1, none⟩ "RS256" true true).2.2.2.1
      ⟨⟨[5], [5], [5], [5], [5], [5], [5], [5]⟩, 1, none⟩ rfl,
   (c10_algorithm_none (fun _ => Except.ok ⟨[9], [3], [9], [9], [9], [9], [9], [9]⟩)
      2048 (fun _ => Except.ok ⟨[5], [5], [5], [5], [5], [5], [5], [5]⟩)
      (fun _ => Except.error "") [] (Jwk.new "RSA")
      ⟨⟨[9], [3], [9], [9], [9], [9], [9], [9]⟩, 1, none⟩ "RS256" true true).2.2.2.2.1
      (by decide)⟩

/-- The eight private-key JWK parameter names in the order `from_jwk`
checks them. -/
def rsaJwkNames : List String := ["n", "e", "d", "p", "q", "dp", "dq", "qi"]

/-- C4: `from_jwk` fails naming RSA whenever `kty` is not "RSA"; a missing
parameter or a non-string parameter produces the distinct message naming
that parameter ("A parameter X is required." / "A parameter X must be a
string."), and the first failing parameter's message (in the source's
checking order n, e, d, p, q, dp, dq, qi) is what `from_jwk` returns,
wrapped in `InvalidKeyFormat`; when all eight decode, `from_jwk` builds
the PKCS#1 `RSAPrivateKey` sequence, wraps it with `to_pkcs8` and loads it
via the collaborator. -/
theorem c4_from_jwk_validation (load : LoadFn) (jwk : Jwk) :
    (jwk.key_type ≠ "RSA" →
      RsaKeyPair.from_jwk load jwk = Except.error (JoseError.InvalidKeyFormat
        ("A parameter kty must be RSA: " ++ jwk.key_type))) ∧
    (∀ name, jwk.parameter name = none →
      jwk_param_bytes jwk name =
        Except.error ("A parameter " ++ name ++ " is required.")) ∧
    (∀ name, jwk.parameter name = some JsonValue.other →
      jwk_param_bytes jwk name =
        Except.error ("A parameter " ++ name ++ " must be a string.")) ∧
    (∀ i msg, i < 8 → jwk.key_type = "RSA" →
      (∀ j, j < i → ∃ bs, jwk_param_bytes jwk (rsaJwkNames.getD j "") = Except.ok bs) →
      jwk_param_bytes jwk (rsaJwkNames.getD i "") = Except.error msg →
      RsaKeyPair.from_jwk load jwk =
        Except.error (JoseError.InvalidKeyFormat msg)) ∧
    (∀ n e d p q dp dq qi, jwk.key_type = "RSA" →
      jwk_param_bytes jwk "n" = Except.ok n →
      jwk_param_bytes jwk "e" = Except.ok e →
      jwk_param_bytes jwk "d" = Except.ok d →
      jwk_param_bytes jwk "p" = Except.ok p →
      jwk_param_bytes jwk "q" = Except.ok q →
      jwk_param_bytes jwk "dp" = Except.ok dp →
      jwk_param_bytes jwk "dq" = Except.ok dq →
      jwk_param_bytes jwk "qi" = Except.ok qi →
      RsaKeyPair.from_jwk load jwk =
        wrapKeyFormat (match load (to_pkcs8 (build_pkcs1 n e d p q dp dq qi) false) with
          | Except.ok rsa => Except.ok ⟨rsa, rsa.n.length, none⟩
          | Except.error err => Except.error err)) := by
  refine ⟨?_, ?_, ?_, ?_, ?_⟩
  · intro hkty
    rw [RsaKeyPair.from_jwk, from_jwk_inner, if_neg hkty]
    rfl
  · intro name h
    simp only [jwk_param_bytes, h]
  · intro name h
    simp only [jwk_param_bytes, h]
  · intro i msg hi hkty hprev herr
    interval_cases i <;>
      rw [RsaKeyPair.from_jwk, from_jwk_inner, if_pos hkty]
    · simp [show jwk_param_bytes jwk "n" = Except.error msg from herr, wrapKeyFormat]
    ·
      obtain ⟨b0, h0⟩ := hprev 0 (by omega)
      simp [show jwk_param_bytes jwk "n" = Except.ok b0 from h0,
        show jwk_param_bytes jwk "e" = Except.error msg from herr, wrapKeyFormat]
    ·
      obtain ⟨b0, h0⟩ := hprev 0 (by omega)
      obtain ⟨b1, h1⟩ := hprev 1 (by omega)
      simp [show jwk_param_bytes jwk "n" = Except.ok b0 from h0,
        show jwk_param_bytes jwk "e" = Except.ok b1 from h1,
        show jwk_param_bytes jwk "d" = Except.error msg from herr, wrapKeyFormat]
    ·
      obtain ⟨b0, h0⟩ := hprev 0 (by omega)
      obtain ⟨b1, h1⟩ := hprev 1 (by omega)
      obtain ⟨b2, h2⟩ := hprev 2 (by omega)
      simp [show jwk_param_bytes jwk "n" = Except.ok b0 from h0,
        show jwk_param_bytes jwk "e" = Except.ok b1 from h1,
        show jwk_param_bytes jwk "d" = Except.ok b2 from h2,
        show jwk_param_bytes jwk "p" = Except.error msg from herr, wrapKeyFormat]
    ·
      obtain ⟨b0, h0⟩ := hprev 0 (by omega)
      obtain ⟨b1, h1⟩ := hprev 1 (by omega)
      obtain ⟨b2, h2⟩ := hprev 2 (by omega)
      obtain ⟨b3, h3⟩ := hprev 3 (by omega)
      simp [show jwk_param_bytes jwk "n" = Except.ok b0 from h0,
        show jwk_param_bytes jwk "e" = Except.ok b1 from h1,
        show jwk_param_bytes jwk "d" = Except.ok b2 from h2,
        show jwk_param_bytes jwk "p" = Except.ok b3 from h3,
        show jwk_param_bytes jwk "q" = Except.error msg from herr, wrapKeyFormat]
    ·
      obtain ⟨b0, h0⟩ := hprev 0 (by omega)
      obtain ⟨b1, h1⟩ := hprev 1 (by omega)
      obtain ⟨b2, h2⟩ := hprev 2 (by omega)
      obtain ⟨b3, h3⟩ := hprev 3 (by omega)
      obtain ⟨b4, h4⟩ := hprev 4 (by omega)
      simp [show jwk_param_bytes jwk "n" = Except.ok b0 from h0,
        show jwk_param_bytes jwk "e" = Except.ok b1 from h1,
        show jwk_param_bytes jwk "d" = Except.ok b2 from h2,
        show jwk_param_bytes jwk "p" = Except.ok b3 from h3,
        show jwk_param_bytes jwk "q" = Except.ok b4 from h4,
        show jwk_param_bytes jwk "dp" = Except.error msg from herr, wrapKeyFormat]
    ·
      obtain ⟨b0, h0⟩ := hprev 0 (by omega)
      obtain ⟨b1, h1⟩ := hprev 1 (by omega)
      obtain ⟨b2, h2⟩ := hprev 2 (by omega)
      obtain ⟨b3, h3⟩ := hprev 3 (by omega)
      obtain ⟨b4, h4⟩ := hprev 4 (by omega)
      obtain ⟨b5, h5⟩ := hprev 5 (by omega)
      simp [show jwk_param_bytes jwk "n" = Except.ok b0 from h0,
        show jwk_param_bytes jwk "e" = Except.ok b1 from h1,
        show jwk_param_bytes jwk "d" = Except.ok b2 from h2,
        show jwk_param_bytes jwk "p" = Except.ok b3 from h3,
        show jwk_param_bytes jwk "q" = Except.ok b4 from h4,
        show jwk_param_bytes jwk "dp" = Except.ok b5 from h5,
        show jwk_param_bytes jwk "dq" = Except.error msg from herr, wrapKeyFormat]
    ·
      obtain ⟨b0, h0⟩ := hprev 0 (by omega)
      obtain ⟨b1, h1⟩ := hprev 1 (by omega)
      obtain ⟨b2, h2⟩ := hprev 2 (by omega)
      obtain ⟨b3, h3⟩ := hprev 3 (by omega)
      obtain ⟨b4, h4⟩ := hprev 4 (by omega)
      obtain ⟨b5, h5⟩ := hprev 5 (by omega)
      obtain ⟨b6, h6⟩ := hprev 6 (by omega)
      simp [show jwk_param_bytes jwk "n" = Except.ok b0 from h0,
        show jwk_param_bytes jwk "e" = Except.ok b1 from h1,
        show jwk_param_bytes jwk "d" = Except.ok b2 from h2,
        show jwk_param_bytes jwk "p" = Except.ok b3 from h3,
        show jwk_param_bytes jwk "q" = Except.ok b4 from h4,
        show jwk_param_bytes jwk "dp" = Except.ok b5 from h5,
        show jwk_param_bytes jwk "dq" = Except.ok b6 from h6,
        show jwk_param_bytes jwk "qi" = Except.error msg from herr, wrapKeyFormat]
  · intro n e d p q dp dq qi hkty hn he hd hp hq hdp hdq hqi
    rw [RsaKeyPair.from_jwk, from_jwk_inner, if_pos hkty]
    simp only [hn, he, hd, hp, hq, hdp, hdq, hqi]

/-- C4 witness: a JWK with `kty = "EC"` fails naming RSA; a JWK with the
first seven parameters present but `qi` absent fails naming `qi`. -/
theorem c4_witness :
    RsaKeyPair.from_jwk (fun _ => Except.error "")
        (⟨[("kty", JsonValue.str "EC")]⟩ : Jwk) =
      Except.error (JoseError.InvalidKeyFormat
        ("A parameter kty must be RSA: " ++
          (⟨[("kty", JsonValue.str "EC")]⟩ : Jwk).key_type)) ∧
    RsaKeyPair.from_jwk (fun _ => Except.error "")
        (⟨[("kty", JsonValue.str "RSA"), ("n", JsonValue.str "BQ"),
           ("e", JsonValue.str "BQ"), ("d", JsonValue.str "BQ"),
           ("p", JsonValue.str "BQ"), ("q", JsonValue.str "BQ"),
           ("dp", JsonValue.str "BQ"), ("dq", JsonValue.str "BQ")]⟩ : Jwk) =
      Except.error (JoseError.InvalidKeyFormat "A parameter qi is required.") :=
  ⟨(c4_from_jwk_validation (fun _ => Except.error "")
      (⟨[("kty", JsonValue.str "EC")]⟩ : Jwk)).1 (by decide),
   (c4_from_jwk_validation (fun _ => Except.error "")
      (⟨[("kty", JsonValue.str "RSA"), ("n", JsonValue.str "BQ"),
         ("e", JsonValue.str "BQ"), ("d", JsonValue.str "BQ"),
         ("p", JsonValue.str "BQ"), ("q", JsonValue.str "BQ"),
         ("dp", JsonValue.str "BQ"), ("dq", JsonValue.str "BQ")]⟩ : Jwk)).2.2.2.1
      7 "A parameter qi is required." (by omega) (by decide)
      (fun j hj => by interval_cases j <;> exact ⟨[5], rfl⟩)
      rfl⟩

/-- C6: `from_jwk(to_jwk_keypair())` recovers every one of the eight
private-key components byte-for-byte: each parameter of the emitted JWK
base64url-decodes back to exactly the component bytes the collaborator
exposed, and `from_jwk` then succeeds, handing the collaborator the
PKCS#8-wrapped PKCS#1 sequence rebuilt from those same bytes (the
hypothesis `hload` is the collaborator's contract of accepting the DER it
can itself produce). -/
theorem c6_jwk_roundtrip (kp : RsaKeyPair) (load : LoadFn) (K : RsaComponents)
    (hbytes : ∀ b ∈ kp.private_key.n ++ kp.private_key.e ++ kp.private_key.d ++
      kp.private_key.p ++ kp.private_key.q ++ kp.private_key.dp ++
      kp.private_key.dq ++ kp.private_key.qi, b < 256)
    (hload : load (to_pkcs8 (build_pkcs1 kp.private_key.n kp.private_key.e
      kp.private_key.d kp.private_key.p kp.private_key.q kp.private_key.dp
      kp.private_key.dq kp.private_key.qi) false) = Except.ok K) :
    jwk_param_bytes kp.to_jwk_keypair "n" = Except.ok kp.private_key.n ∧
    jwk_param_bytes kp.to_jwk_keypair "e" = Except.ok kp.private_key.e ∧
    jwk_param_bytes kp.to_jwk_keypair "d" = Except.ok kp.private_key.d ∧
    jwk_param_bytes kp.to_jwk_keypair "p" = Except.ok kp.private_key.p ∧
    jwk_param_bytes kp.to_jwk_keypair "q" = Except.ok kp.private_key.q ∧
    jwk_param_bytes kp.to_jwk_keypair "dp" = Except.ok kp.private_key.dp ∧
    jwk_param_bytes kp.to_jwk_keypair "dq" = Except.ok kp.private_key.dq ∧
    jwk_param_bytes kp.to_jwk_keypair "qi" = Except.ok kp.private_key.qi ∧
    RsaKeyPair.from_jwk load kp.to_jwk_keypair =
      Except.ok ⟨K, K.n.length, none⟩ := by
  have hb : ∀ l, l = kp.private_key.n ∨ l = kp.private_key.e ∨
      l = kp.private_key.d ∨ l = kp.private_key.p ∨ l = kp.private_key.q ∨
      l = kp.private_key.dp ∨ l = kp.private_key.dq ∨ l = kp.private_key.qi →
      ∀ b ∈ l, b < 256 := by
    intro l hl b hbmem
    apply hbytes
    simp only [List.mem_append]
    rcases hl with rfl | rfl | rfl | rfl | rfl | rfl | rfl | rfl <;> tauto
  have hn : jwk_param_bytes kp.to_jwk_keypair "n" = Except.ok kp.private_key.n := by
    rw [jwk_param_bytes, RsaKeyPair.to_jwk_keypair, to_jwk_parameter]
    simp [b64UrlDecode_b64UrlEncode kp.private_key.n
      (hb kp.private_key.n (Or.inl rfl))]
  have he : jwk_param_bytes kp.to_jwk_keypair "e" = Except.ok kp.private_key.e := by
    rw [jwk_param_bytes, RsaKeyPair.to_jwk_keypair, to_jwk_parameter]
    simp [b64UrlDecode_b64UrlEncode kp.private_key.e
      (hb kp.private_key.e (Or.inr (Or.inl rfl)))]
  have hd : jwk_param_bytes kp.to_jwk_keypair "d" = Except.ok kp.private_key.d := by
    rw [jwk_param_bytes, RsaKeyPair.to_jwk_keypair, to_jwk_parameter]
    simp [b64UrlDecode_b64UrlEncode kp.private_key.d
      (hb kp.private_key.d (Or.inr (Or.inr (Or.inl rfl))))]
  have hp : jwk_param_bytes kp.to_jwk_keypair "p" = Except.ok kp.private_key.p := by
    rw [jwk_param_bytes, RsaKeyPair.to_jwk_keypair, to_jwk_parameter]
    simp [b64UrlDecode_b64UrlEncode kp.private_key.p
      (hb kp.private_key.p (Or.inr (Or.inr (Or.inr (Or.inl rfl)))))]
  have hq : jwk_param_bytes kp.to_jwk_keypair "q" = Except.ok kp.private_key.q := by
    rw [jwk_param_bytes, RsaKeyPair.to_jwk_keypair, to_jwk_parameter]
    simp [b64UrlDecode_b64UrlEncode kp.private_key.q
      (hb kp.private_key.q (Or.inr (Or.inr (Or.inr (Or.inr (Or.inl rfl))))))]
  have hdp : jwk_param_bytes kp.to_jwk_keypair "dp" = Except.ok kp.private_key.dp := by
    rw [jwk_param_bytes, RsaKeyPair.to_jwk_keypair, to_jwk_parameter]
    simp [b64UrlDecode_b64UrlEncode kp.private_key.dp
      (hb kp.private_key.dp (Or.inr (Or.inr (Or.inr (Or.inr (Or.inr (Or.inl rfl)))))))]
  have hdq : jwk_param_bytes kp.to_jwk_keypair "dq" = Except.ok kp.private_key.dq := by
    rw [jwk_param_bytes, RsaKeyPair.to_jwk_keypair, to_jwk_parameter]
    simp [b64UrlDecode_b64UrlEncode kp.private_key.dq
      (hb kp.private_key.dq (Or.inr (Or.inr (Or.inr (Or.inr (Or.inr (Or.inr (Or.inl rfl))))))))]
  have hqi : jwk_param_bytes kp.to_jwk_keypair "qi" = Except.ok kp.private_key.qi := by
    rw [jwk_param_bytes, RsaKeyPair.to_jwk_keypair, to_jwk_parameter]
    simp [b64UrlDecode_b64UrlEncode kp.private_key.qi
      (hb kp.private_key.qi (Or.inr (Or.inr (Or.inr (Or.inr (Or.inr (Or.inr (Or.inr rfl))))))))]
  refine ⟨hn, he, hd, hp, hq, hdp, hdq, hqi, ?_⟩
  have hkty : (kp.to_jwk_keypair).key_type = "RSA" := to_jwk_key_type kp true true
  rw [RsaKeyPair.from_jwk, from_jwk_inner, if_pos hkty]
  simp only [hn, he, hd, hp, hq, hdp, hdq, hqi, hload, wrapKeyFormat]

/-- C6 witness: a concrete key pair whose components survive the
`to_jwk_keypair`/`from_jwk` round trip byte-for-byte. -/
theorem c6_witness :
    jwk_param_bytes
        (⟨⟨[5], [3], [7], [2], [11], [1], [4], [6]⟩, 1, none⟩ : RsaKeyPair).to_jwk_keypair
        "qi" = Except.ok [6] ∧
    RsaKeyPair.from_jwk
        (fun _ => Except.ok ⟨[5], [3], [7], [2], [11], [1], [4], [6]⟩)
        (⟨⟨[5], [3], [7], [2], [11], [1], [4], [6]⟩, 1, none⟩ : RsaKeyPair).to_jwk_keypair =
      Except.ok ⟨⟨[5], [3], [7], [2], [11], [1], [4], [6]⟩, 1, none⟩ := by
  have h := c6_jwk_roundtrip
    (⟨⟨[5], [3], [7], [2], [11], [1], [4], [6]⟩, 1, none⟩ : RsaKeyPair)
    (fun _ => Except.ok ⟨[5], [3], [7], [2], [11], [1], [4], [6]⟩)
    ⟨[5], [3], [7], [2], [11], [1], [4], [6]⟩ (by decide) rfl
  exact ⟨h.2.2.2.2.2.2.2.1, h.2.2.2.2.2.2.2.2⟩

/-- C7: `from_der(to_der_private_key())` feeds the collaborator the very
bytes `to_der_private_key` produced: the PKCS#8 envelope around the
collaborator-emitted PKCS#1 key always satisfies `detect_pkcs8`, so
`from_der` performs no rewrap, and with the collaborator's round-trip
contract (`hload`: loading its own wrapped emission returns the same
components) the resulting key pair carries the original modulus and
exponent. -/
theorem c7_der_roundtrip (raw_private_key : List Nat) (load : LoadFn)
    (K : RsaComponents)
    (hload : load (to_der_private_key raw_private_key) = Except.ok K) :
    detect_pkcs8 (to_der_private_key raw_private_key) false = some () ∧
    from_der_input (to_der_private_key raw_private_key) =
      to_der_private_key raw_private_key ∧
    RsaKeyPair.from_der load (to_der_private_key raw_private_key) =
      Except.ok ⟨K, K.n.length, none⟩ := by
  have hdet : detect_pkcs8 (to_der_private_key raw_private_key) false = some () := by
    rw [to_der_private_key]
    exact detect_to_pkcs8 raw_private_key false
  have hinp : from_der_input (to_der_private_key raw_private_key) =
      to_der_private_key raw_private_key := by
    rw [from_der_input, hdet]
  refine ⟨hdet, hinp, ?_⟩
  rw [RsaKeyPair.from_der, hinp]
  simp only [hload, wrapKeyFormat]

/-- C7 witness: a concrete PKCS#1 buffer whose PKCS#8 wrapping is
recognized and loaded back unchanged. -/
theorem c7_witness :
    detect_pkcs8 (to_der_private_key [1]) false = some () ∧
    RsaKeyPair.from_der (fun _ => Except.ok ⟨[9], [3], [9], [9], [9], [9], [9], [9]⟩)
        (to_der_private_key [1]) =
      Except.ok ⟨⟨[9], [3], [9], [9], [9], [9], [9], [9]⟩, 1, none⟩ := by
  have h := c7_der_roundtrip [1]
    (fun _ => Except.ok ⟨[9], [3], [9], [9], [9], [9], [9], [9]⟩)
    ⟨[9], [3], [9], [9], [9], [9], [9], [9]⟩ rfl
  exact ⟨h.1, h.2.2⟩
